import Mathlib

/-!
Verification of the puzzle-board engine of the `pazzle` repository
(`src/App.tsx`, component `PuzzleBoard`).

Coordinates are modelled as rationals (`ℚ`): every arithmetic operation the
engine performs (addition, subtraction, multiplication, division, comparison)
is exact on the values the claims quantify over, and the one use of
`Math.sqrt` (the snap-distance test in `handleEnd`) is eliminated by squaring:
for `0 ≤ t`, `Math.sqrt d < t ↔ d < t ^ 2` (and for `t < 0` both sides are
false, which `snapOK` reproduces with its explicit `0 ≤ pw` conjunct).
Times are milliseconds (`ℤ`), and the `Math.random()` stream is an injected
function `rand : ℕ → ℚ` consumed in call order, with range hypotheses
`0 ≤ rand n ∧ rand n < 1` where a claim needs them.
-/

/-- One puzzle piece; mirrors `interface Piece` of `src/types.ts`. -/
structure Piece where
  id : ℕ
  row : ℕ
  col : ℕ
  currentX : ℚ
  currentY : ℚ
  targetX : ℚ
  targetY : ℚ
  isLocked : Bool
  zIndex : ℕ
  deriving Repr, DecidableEq

/-- One shimmer particle; mirrors `interface Particle` of `PuzzleBoard`. -/
structure Particle where
  x : ℚ
  y : ℚ
  vx : ℚ
  vy : ℚ
  life : ℚ
  size : ℚ
  color : String
  deriving Repr, DecidableEq

/-- One ripple/particle burst; mirrors `interface VisualEffect`. -/
structure VisualEffect where
  x : ℚ
  y : ℚ
  startTime : ℤ
  particles : List Particle
  deriving Repr, DecidableEq

/-- The geometry the handlers read: canvas (= container) size and the piece
size state (`canvas.width/height`, `pieceSize`). -/
structure Geom where
  cw : ℚ
  ch : ℚ
  pw : ℚ
  ph : ℚ
  deriving Repr, DecidableEq

/-- The mutable component state of `PuzzleBoard` that the claims are about:
`pieces`, `activePieceIndex`, `dragOffset`, `effects`, plus the pending
`setTimeout(onSolved, 800)` deadlines (the code discards the handle returned
by `setTimeout`, so the model keeps a list of deadlines that nothing can
cancel) and the number of times `onSolved` has fired. -/
structure BState where
  pieces : List Piece
  active : Option ℕ
  offX : ℚ
  offY : ℚ
  effects : List VisualEffect
  timers : List ℤ
  fired : ℕ
  deriving Repr, DecidableEq

/-- Derived board layout computed by `initGame` (lines 495-520 of the
board component): board size, board origin, piece size. -/
structure Layout where
  bw : ℚ
  bh : ℚ
  boardX : ℚ
  boardY : ℚ
  pw : ℚ
  ph : ℚ
  deriving Repr, DecidableEq

/-- The aspect comparison and fill computation of `initGame`:
`if (containerAspect > imgAspect) { bh = ch*0.85; bw = bh*imgAspect }
else { bw = cw*0.85; bh = bw/imgAspect }`, plus the derived board origin
`((cw-bw)/2, (ch-bh)/2)` and piece size `(bw/N, bh/N)`. -/
def computeLayout (iw ih cw ch : ℚ) (N : ℕ) : Layout :=
  let imgAspect := iw / ih
  let contAspect := cw / ch
  let fillFactor : ℚ := 85 / 100
  if contAspect > imgAspect then
    let bh := ch * fillFactor
    let bw := bh * imgAspect
    { bw := bw, bh := bh, boardX := (cw - bw) / 2, boardY := (ch - bh) / 2,
      pw := bw / N, ph := bh / N }
  else
    let bw := cw * fillFactor
    let bh := bw / imgAspect
    { bw := bw, bh := bh, boardX := (cw - bw) / 2, boardY := (ch - bh) / 2,
      pw := bw / N, ph := bh / N }

/-- One piece as built by the double loop of `initGame`; the piece at
`(r, c)` consumes `rand (2*(r*N+c))` for `currentX` and `rand (2*(r*N+c)+1)`
for `currentY` (two `Math.random()` calls per piece, in source order). -/
def mkPiece (L : Layout) (cw ch : ℚ) (N : ℕ) (rand : ℕ → ℚ) (r c : ℕ) : Piece :=
  { id := r * N + c
    row := r
    col := c
    currentX := rand (2 * (r * N + c)) * (cw - L.pw)
    currentY := rand (2 * (r * N + c) + 1) * (ch - L.ph)
    targetX := L.boardX + (c : ℚ) * L.pw
    targetY := L.boardY + (r : ℚ) * L.ph
    isLocked := false
    zIndex := r * N + c }

/-- The nested `for (r) for (c)` loop of `initGame` building `newPieces`. -/
def initPieces (L : Layout) (cw ch : ℚ) (N : ℕ) (rand : ℕ → ℚ) : List Piece :=
  (List.range N).flatMap (fun r => (List.range N).map (fun c => mkPiece L cw ch N rand r c))

/-- `initGame` as a transition on the component state: rebuilds `pieces`
from scratch and sets `effects` to `[]`; it touches neither
`activePieceIndex`, nor `dragOffset`, nor any pending `setTimeout` (the
code stores no timer handle, so nothing could be cleared). -/
def initGame (iw ih cw ch : ℚ) (N : ℕ) (rand : ℕ → ℚ) (s : BState) : BState :=
  { s with
    pieces := initPieces (computeLayout iw ih cw ch N) cw ch N rand
    effects := [] }

/-- Insert a piece in front of the first strictly smaller `zIndex`; folding
this over a list from the left yields exactly a stable descending sort,
which is what `[...pieces].sort((a, b) => b.zIndex - a.zIndex)` produces. -/
def insertDesc (a : Piece) : List Piece → List Piece
  | [] => [a]
  | b :: bs => if b.zIndex < a.zIndex then a :: b :: bs else b :: insertDesc a bs

/-- Stable descending sort by `zIndex`, modelling
`[...pieces].sort((a, b) => b.zIndex - a.zIndex)` in `handleStart`. -/
def sortDesc (l : List Piece) : List Piece :=
  l.foldl (fun acc a => insertDesc a acc) []

/-- The pick predicate of `handleStart`:
`!p.isLocked && x >= p.currentX && x <= p.currentX + pieceSize.w
            && y >= p.currentY && y <= p.currentY + pieceSize.h`.
Note both upper bounds are inclusive (`<=`) in the source. -/
def hitTest (g : Geom) (x y : ℚ) (p : Piece) : Bool :=
  !p.isLocked && decide (p.currentX ≤ x) && decide (x ≤ p.currentX + g.pw)
    && decide (p.currentY ≤ y) && decide (y ≤ p.currentY + g.ph)

/-- `Math.max(...pieces.map(p => p.zIndex))`; on the nonempty lists the code
evaluates it on (after a successful hit) the `0` seed is absorbed because
every `zIndex` is a natural number. -/
def maxZ (l : List Piece) : ℕ :=
  l.foldl (fun m p => max m p.zIndex) 0

/-- First index satisfying a predicate, as `pieces.findIndex` does. -/
def findIdxFrom (pred : Piece → Bool) : List Piece → Option ℕ
  | [] => none
  | p :: ps => if pred p then some 0 else (findIdxFrom pred ps).map (· + 1)

/-- `handleStart` (lines 670-691): convert the point, scan the pieces in
descending `zIndex` order for the first unlocked hit, and on a hit remember
the index and drag offset and raise that piece's `zIndex` to `maxZ + 1`.
On a miss nothing changes. -/
def handleStart (g : Geom) (x y : ℚ) (s : BState) : BState :=
  match (sortDesc s.pieces).find? (hitTest g x y) with
  | none => s
  | some hit =>
      match findIdxFrom (fun p => p.id == hit.id) s.pieces with
      | none => s
      | some realIdx =>
          match s.pieces[realIdx]? with
          | none => s
          | some q =>
              { s with
                active := some realIdx
                offX := x - q.currentX
                offY := y - q.currentY
                pieces := s.pieces.set realIdx { q with zIndex := maxZ s.pieces + 1 } }

/-- `handleMove` (lines 693-709): while dragging, move the active piece to
the pointer minus the stored offset, each axis clamped to
`[0, canvasDimension - pieceDimension]`. -/
def handleMove (g : Geom) (x y : ℚ) (s : BState) : BState :=
  match s.active with
  | none => s
  | some i =>
      match s.pieces[i]? with
      | none => s
      | some p =>
          { s with
            pieces := s.pieces.set i
              { p with
                currentX := max 0 (min (g.cw - g.pw) (x - s.offX))
                currentY := max 0 (min (g.ch - g.ph) (y - s.offY)) } }

/-- The snap test of `handleEnd`:
`Math.sqrt((cx-tx)^2 + (cy-ty)^2) < pieceSize.w * 0.25`. Squaring removes
the square root: for `0 ≤ t` the test is `d < t ^ 2`, and for `t < 0` the
source test is false (a square root is never below a negative number),
which the `0 ≤ pw` conjunct reproduces exactly. -/
def snapOK (g : Geom) (p : Piece) : Bool :=
  decide (0 ≤ g.pw) &&
    decide ((p.currentX - p.targetX) ^ 2 + (p.currentY - p.targetY) ^ 2
      < (g.pw * (1 / 4)) ^ 2)

/-- One burst particle as built in `handleEnd`; particle `j` consumes
`rand (3*j)`, `rand (3*j+1)`, `rand (3*j+2)` for `vx`, `vy`, `size`, in
source order. -/
def mkParticle (rand : ℕ → ℚ) (tx ty pw ph : ℚ) (j : ℕ) : Particle :=
  { x := tx + pw / 2
    y := ty + ph / 2
    vx := (rand (3 * j) - 1 / 2) * 8
    vy := (rand (3 * j + 1) - 1 / 2) * 8
    life := 1
    size := 3 / 2 + rand (3 * j + 2) * 3
    color := "rgba(224, 231, 255, ALPHA)" }

/-- `handleEnd` (lines 711-740): if nothing is active, do nothing; otherwise
run the snap test on the active piece. On success: append one `VisualEffect`
at the piece's target with 25 fresh particles, snap the piece onto its
target, lock it, set its `zIndex` to 0, and if now every piece is locked,
schedule `onSolved` for `now + 800` (the `setTimeout` handle is discarded).
Either way the active index is cleared. -/
def handleEnd (g : Geom) (now : ℤ) (rand : ℕ → ℚ) (s : BState) : BState :=
  match s.active with
  | none => s
  | some i =>
      match s.pieces[i]? with
      | none => s
      | some p =>
          if snapOK g p then
            let parts := (List.range 25).map (mkParticle rand p.targetX p.targetY g.pw g.ph)
            let newPieces := s.pieces.set i
              { p with currentX := p.targetX, currentY := p.targetY,
                       isLocked := true, zIndex := 0 }
            { s with
              pieces := newPieces
              effects := s.effects ++
                [{ x := p.targetX, y := p.targetY, startTime := now, particles := parts }]
              timers := if newPieces.all (fun q => q.isLocked) then
                          s.timers ++ [now + 800]
                        else s.timers
              active := none }
          else
            { s with active := none }

/-- The per-frame aging of one particle inside `draw`:
`p.x += p.vx; p.y += p.vy; p.life -= 0.015`. -/
def tickParticle (p : Particle) : Particle :=
  { p with x := p.x + p.vx, y := p.y + p.vy, life := p.life - 3 / 200 }

/-- The effect update of one `draw` call (lines 616-656): keep only effects
with `now - startTime < 1200`, and age every particle of every kept effect.
Particles with nonpositive life are merely not drawn; they are not removed
and their life is still decremented. -/
def stepEffects (now : ℤ) (effs : List VisualEffect) : List VisualEffect :=
  (effs.filter (fun e => decide (now - e.startTime < 1200))).map
    (fun e => { e with particles := e.particles.map tickParticle })

/-- Firing of due `setTimeout(onSolved, 800)` callbacks at time `now`: each
deadline that has been reached fires `onSolved` once and disappears. -/
def fireDue (now : ℤ) (s : BState) : BState :=
  { s with
    timers := s.timers.filter (fun d => decide (now < d))
    fired := s.fired + (s.timers.filter (fun d => decide (d ≤ now))).length }

/-- One pointer input, as delivered to the three handlers. -/
inductive PInput where
  | down (x y : ℚ)
  | move (x y : ℚ)
  | up (now : ℤ) (rand : ℕ → ℚ)

/-- Dispatch one pointer input to the corresponding handler. -/
def step (g : Geom) (inp : PInput) (s : BState) : BState :=
  match inp with
  | .down x y => handleStart g x y s
  | .move x y => handleMove g x y s
  | .up now rand => handleEnd g now rand s

/-- Run a sequence of pointer inputs. -/
def runInputs (g : Geom) (l : List PInput) (s : BState) : BState :=
  l.foldl (fun t inp => step g inp t) s

/-- The active index, when set, denotes an existing unlocked piece. -/
def activeOK (s : BState) : Bool :=
  match s.active with
  | none => true
  | some i =>
      match s.pieces[i]? with
      | none => false
      | some p => !p.isLocked

/-- Well-formedness holding in every reachable state of the component:
piece ids are distinct (`initGame` numbers them `0..N*N-1` and no handler
changes an id) and the active piece, if any, exists and is unlocked
(`handleStart` only ever picks an unlocked piece). -/
def WF (s : BState) : Prop :=
  (s.pieces.map Piece.id).Nodup ∧ activeOK s = true

/-! ## Concrete demonstration data used by witnesses and counterexamples -/

/-- A canvas of 200×100 with 10×10 pieces. -/
def demoGeom : Geom := { cw := 200, ch := 100, pw := 10, ph := 10 }

/-- The constant random source used by concrete demonstrations. -/
def halfRand : ℕ → ℚ := fun _ => 1 / 2

/-- An unlocked piece one pixel away from its target on each axis. -/
def demoNear : Piece :=
  { id := 0, row := 0, col := 0, currentX := 51, currentY := 31,
    targetX := 50, targetY := 30, isLocked := false, zIndex := 0 }

/-- An unlocked piece far from its target. -/
def demoFar : Piece :=
  { id := 0, row := 0, col := 0, currentX := 150, currentY := 80,
    targetX := 50, targetY := 30, isLocked := false, zIndex := 0 }

/-- A one-piece dragging state around a given active piece. -/
def demoDrag (p : Piece) : BState :=
  { pieces := [p], active := some 0, offX := 0, offY := 0,
    effects := [], timers := [], fired := 0 }

/-! ## C1 -/

/-- Claim C1: on a drag release whose (squared) Euclidean distance to the
target is below the square of `0.25 × pieceWidth`, the released piece is
snapped exactly onto `(targetX, targetY)`, locked, its `zIndex` becomes 0,
and exactly one `VisualEffect` is appended, positioned at the piece's
target position. -/
theorem c1_snap_locks (g : Geom) (now : ℤ) (rand : ℕ → ℚ) (s : BState) (i : ℕ) (p : Piece)
    (hact : s.active = some i) (hp : s.pieces[i]? = some p) (hpw : 0 ≤ g.pw)
    (hdist : (p.currentX - p.targetX) ^ 2 + (p.currentY - p.targetY) ^ 2
      < (g.pw * (1 / 4)) ^ 2) :
    (handleEnd g now rand s).pieces[i]? =
      some { p with currentX := p.targetX, currentY := p.targetY,
                    isLocked := true, zIndex := 0 } ∧
    (handleEnd g now rand s).effects = s.effects ++
      [{ x := p.targetX, y := p.targetY, startTime := now,
         particles := (List.range 25).map (mkParticle rand p.targetX p.targetY g.pw g.ph) }] ∧
    (handleEnd g now rand s).active = none := by
  have hsnap : snapOK g p = true := by
    unfold snapOK
    rw [decide_eq_true hpw, decide_eq_true hdist]
    rfl
  have hlen : i < s.pieces.length := by
    rcases List.getElem?_eq_some.mp hp with ⟨h, _⟩
    exact h
  refine ⟨?_, ?_, ?_⟩ <;>
    simp [handleEnd, hact, hp, hsnap, List.getElem?_set_self hlen]

/-- Witness for C1 at a concrete one-piece state. -/
theorem c1_snap_locks_witness :
    (handleEnd demoGeom 5 (fun _ => 1 / 2) (demoDrag demoNear)).pieces[0]? =
      some { demoNear with currentX := demoNear.targetX, currentY := demoNear.targetY,
                           isLocked := true, zIndex := 0 } ∧
    (handleEnd demoGeom 5 (fun _ => 1 / 2) (demoDrag demoNear)).effects =
      (demoDrag demoNear).effects ++
      [{ x := demoNear.targetX, y := demoNear.targetY, startTime := 5,
         particles := (List.range 25).map
           (mkParticle (fun _ => 1 / 2) demoNear.targetX demoNear.targetY demoGeom.pw demoGeom.ph) }] ∧
    (handleEnd demoGeom 5 (fun _ => 1 / 2) (demoDrag demoNear)).active = none :=
  c1_snap_locks demoGeom 5 (fun _ => 1 / 2) (demoDrag demoNear) 0 demoNear
    rfl rfl (by norm_num [demoGeom]) (by norm_num [demoGeom, demoNear])

/-! ## C2 -/

/-- Claim C2: on a drag release at (squared) distance at least the square of
`0.25 × pieceWidth` from the target, no piece field changes, no effect is
spawned, no solved timer is scheduled, and the drag simply ends. -/
theorem c2_no_snap (g : Geom) (now : ℤ) (rand : ℕ → ℚ) (s : BState) (i : ℕ) (p : Piece)
    (hact : s.active = some i) (hp : s.pieces[i]? = some p)
    (hdist : (g.pw * (1 / 4)) ^ 2 ≤
      (p.currentX - p.targetX) ^ 2 + (p.currentY - p.targetY) ^ 2) :
    (handleEnd g now rand s).pieces = s.pieces ∧
    (handleEnd g now rand s).effects = s.effects ∧
    (handleEnd g now rand s).timers = s.timers ∧
    (handleEnd g now rand s).active = none := by
  have hsnap : snapOK g p = false := by
    unfold snapOK
    rw [decide_eq_false (not_lt.mpr hdist), Bool.and_false]
  refine ⟨?_, ?_, ?_, ?_⟩ <;>
    simp [handleEnd, hact, hp, hsnap]

/-- Witness for C2 at a concrete one-piece state. -/
theorem c2_no_snap_witness :
    (handleEnd demoGeom 5 (fun _ => 1 / 2) (demoDrag demoFar)).pieces = (demoDrag demoFar).pieces ∧
    (handleEnd demoGeom 5 (fun _ => 1 / 2) (demoDrag demoFar)).effects = (demoDrag demoFar).effects ∧
    (handleEnd demoGeom 5 (fun _ => 1 / 2) (demoDrag demoFar)).timers = (demoDrag demoFar).timers ∧
    (handleEnd demoGeom 5 (fun _ => 1 / 2) (demoDrag demoFar)).active = none :=
  c2_no_snap demoGeom 5 (fun _ => 1 / 2) (demoDrag demoFar) 0 demoFar
    rfl rfl (by norm_num [demoGeom, demoFar])

/-! ## C10 -/

/-- Claim C10: every (re)initialization of the board leaves the live
visual-effects list empty: no effect spawned before the rebuild survives
into the new puzzle instance. -/
theorem c10_reinit_clears_effects (iw ih cw ch : ℚ) (N : ℕ) (rand : ℕ → ℚ) (s : BState) :
    (initGame iw ih cw ch N rand s).effects = [] := rfl

/-! ## C9 -/

/-- Claim C9 fails on the code: `initGame` has no zero-size guard, so with a
zero-height display area it still builds all `N²` pieces instead of
skipping piece placement. Evaluated at image 4×3, container 100×0, `N = 3`:
nine pieces are produced, not zero. (The piece count is independent of how
the division `cw / ch` at `ch = 0` is valued, so this does not depend on
the model's total-division convention.) -/
theorem c9_zero_height_still_places_pieces :
    (initPieces (computeLayout 4 3 100 0 3) 100 0 3 (fun _ => 1 / 2)).length = 9 ∧
    (initGame 4 3 100 0 3 (fun _ => 1 / 2) (demoDrag demoFar)).pieces ≠ [] := by
  constructor <;> decide

/-! ## Geometry lemmas for C6 and C7 -/

/-- The board computed by `computeLayout` is positive, bounded by
`0.85 ×` the container in both dimensions, and its piece size is the board
size divided by the grid size. -/
theorem computeLayout_bounds (iw ih cw ch : ℚ) (N : ℕ)
    (hiw : 0 < iw) (hih : 0 < ih) (hcw : 0 < cw) (hch : 0 < ch) :
    0 < (computeLayout iw ih cw ch N).bw ∧ 0 < (computeLayout iw ih cw ch N).bh ∧
    (computeLayout iw ih cw ch N).bw ≤ 85 / 100 * cw ∧
    (computeLayout iw ih cw ch N).bh ≤ 85 / 100 * ch ∧
    (computeLayout iw ih cw ch N).pw = (computeLayout iw ih cw ch N).bw / N ∧
    (computeLayout iw ih cw ch N).ph = (computeLayout iw ih cw ch N).bh / N := by
  simp only [computeLayout]
  split_ifs with h
  · dsimp only
    rw [gt_iff_lt, div_lt_div_iff₀ hih hch] at h
    refine ⟨by positivity, by positivity, ?_, by linarith, rfl, rfl⟩
    have key : ch * iw / ih ≤ cw := by
      rw [div_le_iff₀ hih]
      nlinarith
    calc ch * (85 / 100) * (iw / ih) = 85 / 100 * (ch * iw / ih) := by ring
      _ ≤ 85 / 100 * cw := by linarith
  · dsimp only
    rw [gt_iff_lt, not_lt, div_le_div_iff₀ hch hih] at h
    have haspect : 0 < iw / ih := by positivity
    refine ⟨by linarith, by positivity, by linarith, ?_, rfl, rfl⟩
    have key : cw * ih / iw ≤ ch := by
      rw [div_le_iff₀ hiw]
      nlinarith
    calc cw * (85 / 100) / (iw / ih) = 85 / 100 * (cw * ih / iw) := by
          field_simp
          ring
      _ ≤ 85 / 100 * ch := by linarith

/-- The nested index loop enumerates `r * N + c` in increasing order. -/
theorem range_flatMap_range (N : ℕ) :
    ∀ m : ℕ, (List.range m).flatMap
        (fun r => (List.range N).map (fun c => r * N + c)) = List.range (m * N)
  | 0 => by rw [Nat.zero_mul]; rfl
  | m + 1 => by
      rw [List.range_succ, List.flatMap_append, range_flatMap_range N m]
      have : (m + 1) * N = m * N + N := by ring
      rw [this, List.range_add]
      simp [Nat.add_comm]

/-- The ids of the freshly built pieces are `0, 1, ..., N*N-1` in order. -/
theorem initPieces_map_id (L : Layout) (cw ch : ℚ) (N : ℕ) (rand : ℕ → ℚ) :
    (initPieces L cw ch N rand).map Piece.id = List.range (N * N) := by
  unfold initPieces
  rw [List.map_flatMap]
  have : (fun r => ((List.range N).map (fun c => mkPiece L cw ch N rand r c)).map Piece.id)
       = fun r => (List.range N).map (fun c => r * N + c) := by
    funext r
    rw [List.map_map]
    rfl
  rw [this, range_flatMap_range]

/-- The board origin always centers the board in the container. -/
theorem computeLayout_origin (iw ih cw ch : ℚ) (N : ℕ) :
    (computeLayout iw ih cw ch N).boardX = (cw - (computeLayout iw ih cw ch N).bw) / 2 ∧
    (computeLayout iw ih cw ch N).boardY = (ch - (computeLayout iw ih cw ch N).bh) / 2 := by
  simp only [computeLayout]
  split_ifs <;> exact ⟨rfl, rfl⟩

/-- Both branches of the aspect comparison preserve the image aspect. -/
theorem computeLayout_aspect (iw ih cw ch : ℚ) (N : ℕ)
    (hiw : 0 < iw) (hih : 0 < ih) (hcw : 0 < cw) (hch : 0 < ch) :
    (computeLayout iw ih cw ch N).bw / (computeLayout iw ih cw ch N).bh = iw / ih := by
  have hiw0 : iw ≠ 0 := ne_of_gt hiw
  have hih0 : ih ≠ 0 := ne_of_gt hih
  have hcw0 : cw ≠ 0 := ne_of_gt hcw
  have hch0 : ch ≠ 0 := ne_of_gt hch
  simp only [computeLayout]
  split_ifs with h
  · dsimp only
    field_simp
    ring
  · dsimp only
    field_simp
    ring

/-! ## C6 -/

/-- Claim C6: for every supported grid size and positive image and container
dimensions, initialization builds exactly `N²` pieces whose ids are
`0, ..., N²-1` in enumeration order (hence unique, with `id = row*N + col`
covering each `(row, col)` pair exactly once), all unlocked, with
`zIndex = id`, and with a scatter position inside
`[0, containerWidth − pieceWidth] × [0, containerHeight − pieceHeight]`. -/
theorem c6_init_pieces (iw ih cw ch : ℚ) (N : ℕ) (rand : ℕ → ℚ)
    (hN : N = 3 ∨ N = 4 ∨ N = 6 ∨ N = 8)
    (hiw : 0 < iw) (hih : 0 < ih) (hcw : 0 < cw) (hch : 0 < ch)
    (hrand : ∀ n, 0 ≤ rand n ∧ rand n < 1) :
    (initPieces (computeLayout iw ih cw ch N) cw ch N rand).length = N * N ∧
    (initPieces (computeLayout iw ih cw ch N) cw ch N rand).map Piece.id = List.range (N * N) ∧
    ∀ p ∈ initPieces (computeLayout iw ih cw ch N) cw ch N rand,
      p.id = p.row * N + p.col ∧ p.row < N ∧ p.col < N ∧
      p.isLocked = false ∧ p.zIndex = p.id ∧
      0 ≤ p.currentX ∧ p.currentX ≤ cw - (computeLayout iw ih cw ch N).pw ∧
      0 ≤ p.currentY ∧ p.currentY ≤ ch - (computeLayout iw ih cw ch N).ph := by
  have hN1 : (1 : ℚ) ≤ (N : ℚ) := by rcases hN with h | h | h | h <;> subst h <;> norm_num
  obtain ⟨hbw, hbh, hbwle, hbhle, hpw, hph⟩ :=
    computeLayout_bounds iw ih cw ch N hiw hih hcw hch
  have hpwle : (computeLayout iw ih cw ch N).pw ≤ cw := by
    rw [hpw]
    have h1 : (computeLayout iw ih cw ch N).bw / N ≤ (computeLayout iw ih cw ch N).bw :=
      div_le_self (le_of_lt hbw) hN1
    linarith
  have hphle : (computeLayout iw ih cw ch N).ph ≤ ch := by
    rw [hph]
    have h1 : (computeLayout iw ih cw ch N).bh / N ≤ (computeLayout iw ih cw ch N).bh :=
      div_le_self (le_of_lt hbh) hN1
    linarith
  refine ⟨?_, initPieces_map_id _ cw ch N rand, ?_⟩
  · have hlen := congrArg List.length (initPieces_map_id (computeLayout iw ih cw ch N) cw ch N rand)
    simpa using hlen
  · intro p hp
    simp only [initPieces, List.mem_flatMap, List.mem_map, List.mem_range] at hp
    obtain ⟨r, hr, c, hc, rfl⟩ := hp
    refine ⟨rfl, hr, hc, rfl, rfl, ?_, ?_, ?_, ?_⟩
    · exact mul_nonneg (hrand _).1 (by linarith)
    · calc rand (2 * (r * N + c)) * (cw - (computeLayout iw ih cw ch N).pw)
          ≤ 1 * (cw - (computeLayout iw ih cw ch N).pw) :=
            mul_le_mul_of_nonneg_right (le_of_lt (hrand _).2) (by linarith)
        _ = cw - (computeLayout iw ih cw ch N).pw := one_mul _
    · exact mul_nonneg (hrand _).1 (by linarith)
    · calc rand (2 * (r * N + c) + 1) * (ch - (computeLayout iw ih cw ch N).ph)
          ≤ 1 * (ch - (computeLayout iw ih cw ch N).ph) :=
            mul_le_mul_of_nonneg_right (le_of_lt (hrand _).2) (by linarith)
        _ = ch - (computeLayout iw ih cw ch N).ph := one_mul _

/-- Witness for C6 with a 4:3 image in a 200×100 container at `N = 3`. -/
theorem c6_init_pieces_witness :
    (initPieces (computeLayout 4 3 200 100 3) 200 100 3 (fun _ => 1 / 2)).length = 3 * 3 ∧
    (initPieces (computeLayout 4 3 200 100 3) 200 100 3 (fun _ => 1 / 2)).map Piece.id =
      List.range (3 * 3) :=
  have h := c6_init_pieces 4 3 200 100 3 (fun _ => 1 / 2) (Or.inl rfl)
    (by norm_num) (by norm_num) (by norm_num) (by norm_num)
    (fun n => ⟨by norm_num, by norm_num⟩)
  ⟨h.1, h.2.1⟩

/-! ## C7 -/

/-- Claim C7: for positive image and container sizes the computed board
preserves the image aspect (`bw / bh = iw / ih`), neither dimension exceeds
`0.85 ×` the corresponding container dimension, the board is centered (equal
margins on each side), and each piece's target equals the board origin plus
`(col, row) × (bw/N, bh/N)`. -/
theorem c7_board_geometry (iw ih cw ch : ℚ) (N : ℕ) (rand : ℕ → ℚ)
    (hiw : 0 < iw) (hih : 0 < ih) (hcw : 0 < cw) (hch : 0 < ch) :
    (computeLayout iw ih cw ch N).bw / (computeLayout iw ih cw ch N).bh = iw / ih ∧
    (computeLayout iw ih cw ch N).bw ≤ 85 / 100 * cw ∧
    (computeLayout iw ih cw ch N).bh ≤ 85 / 100 * ch ∧
    cw - ((computeLayout iw ih cw ch N).boardX + (computeLayout iw ih cw ch N).bw) =
      (computeLayout iw ih cw ch N).boardX ∧
    ch - ((computeLayout iw ih cw ch N).boardY + (computeLayout iw ih cw ch N).bh) =
      (computeLayout iw ih cw ch N).boardY ∧
    ∀ p ∈ initPieces (computeLayout iw ih cw ch N) cw ch N rand,
      p.targetX = (computeLayout iw ih cw ch N).boardX +
        (p.col : ℚ) * ((computeLayout iw ih cw ch N).bw / N) ∧
      p.targetY = (computeLayout iw ih cw ch N).boardY +
        (p.row : ℚ) * ((computeLayout iw ih cw ch N).bh / N) := by
  obtain ⟨hbw, hbh, hbwle, hbhle, hpw, hph⟩ :=
    computeLayout_bounds iw ih cw ch N hiw hih hcw hch
  obtain ⟨hox, hoy⟩ := computeLayout_origin iw ih cw ch N
  refine ⟨computeLayout_aspect iw ih cw ch N hiw hih hcw hch, hbwle, hbhle,
    by rw [hox]; ring, by rw [hoy]; ring, ?_⟩
  intro p hp
  simp only [initPieces, List.mem_flatMap, List.mem_map, List.mem_range] at hp
  obtain ⟨r, hr, c, hc, rfl⟩ := hp
  exact ⟨by rw [← hpw]; rfl, by rw [← hph]; rfl⟩

/-- Witness for C7 with a 4:3 image in a 200×100 container at `N = 3`. -/
theorem c7_board_geometry_witness :
    (computeLayout 4 3 200 100 3).bw / (computeLayout 4 3 200 100 3).bh = 4 / 3 ∧
    (computeLayout 4 3 200 100 3).bw ≤ 85 / 100 * 200 :=
  have h := c7_board_geometry 4 3 200 100 3 (fun _ => 1 / 2)
    (by norm_num) (by norm_num) (by norm_num) (by norm_num)
  ⟨h.1, h.2.1⟩

/-! ## C3 -/

/-- A 3×3 piece already sitting exactly on a `(10k, 0)` target slot. -/
def slotPiece (k : ℕ) (locked : Bool) : Piece :=
  { id := k, row := k / 3, col := k % 3, currentX := 10 * (k : ℚ), currentY := 0,
    targetX := 10 * (k : ℚ), targetY := 0, isLocked := locked,
    zIndex := if locked then 0 else k }

/-- A 3×3 board one release away from being solved: pieces 1..8 locked,
piece 0 dragged onto its target and still active. -/
def c3Start : BState :=
  { pieces := [slotPiece 0 false, slotPiece 1 true, slotPiece 2 true,
               slotPiece 3 true, slotPiece 4 true, slotPiece 5 true,
               slotPiece 6 true, slotPiece 7 true, slotPiece 8 true]
    active := some 0, offX := 0, offY := 0, effects := [], timers := [], fired := 0 }

/-- The scenario of claim C3's invalidation clause, step by step: at time 0
the last piece is released and locks (scheduling `onSolved` for time 800);
the board is then re-initialized (new image/resize) well before time 800;
at time 800 the pending callback fires. -/
def c3Final : BState :=
  fireDue 800 (initGame 4 3 200 100 3 halfRand (handleEnd demoGeom 0 halfRand c3Start))

/-- Claim C3's invalidation clause fails on the code: `handleEnd` never
stores the handle returned by `setTimeout(onSolved, 800)` and `initGame`
clears nothing, so after locking the last piece at time 0 and
re-initializing the board before time 800, the stale callback still fires
`onSolved` at time 800 into a board with all nine pieces unlocked. -/
theorem c3_stale_timer_fires_into_reset_board :
    c3Final.fired = 1 ∧
    c3Final.pieces.all (fun p => p.isLocked) = false ∧
    c3Final.pieces.length = 9 := by
  have hsnap : snapOK demoGeom (slotPiece 0 false) = true := by
    norm_num [snapOK, demoGeom, slotPiece]
  have hlock : ∀ k : ℕ, (slotPiece k true).isLocked = true := fun _ => rfl
  have hEnd : (handleEnd demoGeom 0 halfRand c3Start).timers = [800] ∧
      (handleEnd demoGeom 0 halfRand c3Start).fired = 0 := by
    simp [handleEnd, c3Start, hsnap, hlock]
  refine ⟨?_, ?_, ?_⟩
  · have ht : (initGame 4 3 200 100 3 halfRand
        (handleEnd demoGeom 0 halfRand c3Start)).timers = [800] := hEnd.1
    have hf : (initGame 4 3 200 100 3 halfRand
        (handleEnd demoGeom 0 halfRand c3Start)).fired = 0 := hEnd.2
    show (initGame 4 3 200 100 3 halfRand (handleEnd demoGeom 0 halfRand c3Start)).fired +
      ((initGame 4 3 200 100 3 halfRand (handleEnd demoGeom 0 halfRand c3Start)).timers.filter
        (fun d => decide (d ≤ 800))).length = 1
    rw [ht, hf]
    simp
  · have hp : c3Final.pieces =
        initPieces (computeLayout 4 3 200 100 3) 200 100 3 halfRand := rfl
    rw [hp]
    apply List.all_eq_false.mpr
    refine ⟨mkPiece (computeLayout 4 3 200 100 3) 200 100 3 halfRand 0 0, ?_, by
      simp [mkPiece]⟩
    simp only [initPieces, List.mem_flatMap, List.mem_map, List.mem_range]
    exact ⟨0, by norm_num, 0, by norm_num, rfl⟩
  · show (initPieces (computeLayout 4 3 200 100 3) 200 100 3 halfRand).length = 9
    have hlen := congrArg List.length
      (initPieces_map_id (computeLayout 4 3 200 100 3) 200 100 3 halfRand)
    simpa using hlen

/-! ## C8 -/

/-- A visual effect exactly as `handleEnd` spawns it (burst of 25 particles
with unit life), started at time 0, with the constant random source `1/2`
(so all velocities are zero). -/
def demoEffect : VisualEffect :=
  { x := 0, y := 0, startTime := 0,
    particles := (List.range 25).map (mkParticle halfRand 0 0 10 10) }

/-- 67 render ticks at 16 ms intervals (1072 ms of wall clock, all inside
the 1200 ms effect window) applied to the freshly spawned effect. -/
def c8Ticks : List VisualEffect :=
  ((List.range 67).map (fun k : ℕ => (16 : ℤ) * (k + 1))).foldl
    (fun effs t => stepEffects t effs) [demoEffect]

/-- Each render tick subtracts exactly 0.015 from a particle's life. -/
theorem iterate_tickParticle_life (p : Particle) (n : ℕ) :
    (tickParticle^[n] p).life = p.life - n * (3 / 200) := by
  induction n with
  | zero => simp
  | succ k ih =>
      rw [Function.iterate_succ_apply']
      show (tickParticle^[k] p).life - 3 / 200 = p.life - (k + 1 : ℕ) * (3 / 200)
      rw [ih]
      push_cast
      ring

/-- While every tick time stays below the 1200 ms deadline, a single spawned
effect stays in the live list, its particles ticked once per call. -/
theorem fold_stepEffects_single (e : VisualEffect) (ts : List ℤ)
    (hts : ∀ t ∈ ts, t - e.startTime < 1200) :
    ts.foldl (fun effs t => stepEffects t effs) [e] =
      [{ e with particles := e.particles.map (tickParticle^[ts.length]) }] := by
  induction ts generalizing e with
  | nil => simp
  | cons t ts ih =>
      rw [List.foldl_cons]
      have h1 : stepEffects t [e] = [{ e with particles := e.particles.map tickParticle }] := by
        simp [stepEffects, hts t (List.mem_cons_self t ts)]
      rw [h1, ih { e with particles := e.particles.map tickParticle }
        (fun u hu => hts u (List.mem_cons_of_mem t hu))]
      simp [List.map_map, Function.iterate_succ]

/-- Claim C8 as stated is false on the code: particle life is decremented by
0.015 per render tick with no lower clamp, so after 67 ticks at 16 ms
spacing — 1072 ms of wall clock, all inside the effect's 1200 ms lifetime,
which keeps the effect in the live list — a particle of the still-live
effect has life `1 - 67 × 0.015 = -0.005 < 0`, outside the claimed
`[0, 1]`. -/
theorem c8_counterexample :
    ∃ e ∈ c8Ticks, ∃ p ∈ e.particles, p.life < 0 := by
  have hts : ∀ t ∈ (List.range 67).map (fun k : ℕ => (16 : ℤ) * (k + 1)),
      t - demoEffect.startTime < 1200 := by
    intro t ht
    simp only [List.mem_map, List.mem_range] at ht
    obtain ⟨k, hk, rfl⟩ := ht
    have h0 : demoEffect.startTime = 0 := rfl
    rw [h0]
    omega
  have hlen : ((List.range 67).map (fun k : ℕ => (16 : ℤ) * (k + 1))).length = 67 := by simp
  unfold c8Ticks
  rw [fold_stepEffects_single demoEffect _ hts, hlen]
  refine ⟨_, List.mem_singleton_self _, ?_⟩
  have hp0 : mkParticle halfRand 0 0 10 10 0 ∈ demoEffect.particles := by
    simp only [demoEffect, List.mem_map, List.mem_range]
    exact ⟨0, by norm_num, rfl⟩
  refine ⟨tickParticle^[67] (mkParticle halfRand 0 0 10 10 0),
    List.mem_map_of_mem _ hp0, ?_⟩
  rw [iterate_tickParticle_life]
  norm_num [mkParticle]

/-- Claim C8 amended: particle life strictly decreases by the fixed step
0.015 on every render tick (with no clamp at 0), and the live-effect list
after a tick contains only aged copies of effects that were already live
and whose age is still below 1200 ms — so an effect whose age has reached
1200 ms is removed, and no removed effect can reappear. -/
theorem c8_amended_effect_aging (now : ℤ) (effs : List VisualEffect) (e : VisualEffect)
    (he : e ∈ stepEffects now effs) :
    now - e.startTime < 1200 ∧
    ∃ e0 ∈ effs, e.startTime = e0.startTime ∧ e.x = e0.x ∧ e.y = e0.y ∧
      e.particles = e0.particles.map tickParticle ∧
      ∀ p ∈ e0.particles,
        (tickParticle p).life = p.life - 3 / 200 ∧ (tickParticle p).life < p.life := by
  simp only [stepEffects, List.mem_map, List.mem_filter, decide_eq_true_eq] at he
  obtain ⟨e0, ⟨he0, hlt⟩, rfl⟩ := he
  refine ⟨hlt, e0, he0, rfl, rfl, rfl, rfl, ?_⟩
  intro p hp
  refine ⟨rfl, ?_⟩
  show p.life - 3 / 200 < p.life
  linarith

/-- Witness for the amended C8 at the freshly spawned demonstration
effect. -/
theorem c8_amended_effect_aging_witness :
    (0 : ℤ) - ({ demoEffect with
      particles := demoEffect.particles.map tickParticle } : VisualEffect).startTime < 1200 :=
  (c8_amended_effect_aging 0 [demoEffect]
    { demoEffect with particles := demoEffect.particles.map tickParticle }
    (by
      have h : stepEffects 0 [demoEffect] =
          [{ demoEffect with particles := demoEffect.particles.map tickParticle }] := by
        have h0 : demoEffect.startTime = 0 := rfl
        simp [stepEffects, h0]
      rw [h]
      exact List.mem_singleton_self _)).1

/-! ## Lemmas about the descending-zIndex scan and index lookup -/

/-- Membership through `insertDesc`. -/
theorem mem_insertDesc {a b : Piece} {l : List Piece} :
    b ∈ insertDesc a l ↔ b = a ∨ b ∈ l := by
  induction l with
  | nil => simp [insertDesc]
  | cons c cs ih =>
      simp only [insertDesc]
      split_ifs with h
      · simp only [List.mem_cons]
      · simp only [List.mem_cons, ih]
        tauto

/-- Membership through the insertion fold behind `sortDesc`. -/
theorem mem_foldl_insertDesc (l : List Piece) :
    ∀ (acc : List Piece) (b : Piece),
      b ∈ l.foldl (fun acc a => insertDesc a acc) acc ↔ b ∈ acc ∨ b ∈ l := by
  induction l with
  | nil => intro acc b; simp
  | cons a as ih =>
      intro acc b
      rw [List.foldl_cons, ih]
      simp only [mem_insertDesc, List.mem_cons]
      tauto

/-- `sortDesc` has exactly the members of its input. -/
theorem mem_sortDesc {b : Piece} {l : List Piece} : b ∈ sortDesc l ↔ b ∈ l := by
  unfold sortDesc
  rw [mem_foldl_insertDesc]
  simp

/-- What a successful `findIndex` scan returns: an index holding a
predicate-satisfying element. -/
theorem findIdxFrom_eq_some {pred : Piece → Bool} :
    ∀ {l : List Piece} {i : ℕ}, findIdxFrom pred l = some i →
      ∃ p, l[i]? = some p ∧ pred p = true := by
  intro l
  induction l with
  | nil => intro i h; cases h
  | cons a as ih =>
      intro i h
      simp only [findIdxFrom] at h
      split_ifs at h with hpa
      · rw [Option.some.injEq] at h
        subst h
        exact ⟨a, by simp, hpa⟩
      · rcases Option.map_eq_some'.mp h with ⟨j, hj, rfl⟩
        obtain ⟨p, hp', hpred⟩ := ih hj
        exact ⟨p, by simpa using hp', hpred⟩

/-- Writing back the element already stored at an index changes nothing. -/
theorem set_of_getElem?_eq {α : Type} (l : List α) (n : ℕ) (a : α) (h : l[n]? = some a) :
    l.set n a = l := by
  apply List.ext_getElem?
  intro m
  by_cases hm : n = m
  · subst hm
    rcases List.getElem?_eq_some.mp h with ⟨hlt, _⟩
    rw [List.getElem?_set_self hlt, h]
  · rw [List.getElem?_set_ne hm]

/-- Unpacking `activeOK` at a set active index. -/
theorem activeOK_some {s : BState} {i : ℕ} (h : activeOK s = true) (hact : s.active = some i) :
    ∃ p, s.pieces[i]? = some p ∧ p.isLocked = false := by
  simp only [activeOK, hact] at h
  cases hq : s.pieces[i]? with
  | none => rw [hq] at h; cases h
  | some p =>
      rw [hq] at h
      exact ⟨p, rfl, by simpa using h⟩

/-- The first conjunct of `hitTest`: only unlocked pieces can be hit. -/
theorem hitTest_unlocked {g : Geom} {x y : ℚ} {p : Piece} (h : hitTest g x y p = true) :
    p.isLocked = false := by
  simp only [hitTest, Bool.and_eq_true, Bool.not_eq_true'] at h
  exact h.1.1.1.1

/-! ## C4: preservation lemmas, one per handler -/

/-- `handleStart` leaves every locked piece untouched and preserves
well-formedness. -/
theorem handleStart_preserves (g : Geom) (x y : ℚ) (s : BState) (hwf : WF s)
    {j : ℕ} {p : Piece} (hp : s.pieces[j]? = some p) (hlock : p.isLocked = true) :
    (handleStart g x y s).pieces[j]? = some p ∧ WF (handleStart g x y s) := by
  obtain ⟨hnodup, hao⟩ := hwf
  cases hfind : (sortDesc s.pieces).find? (hitTest g x y) with
  | none =>
      have hs : handleStart g x y s = s := by
        simp only [handleStart, hfind]
      rw [hs]
      exact ⟨hp, hnodup, hao⟩
  | some hit =>
      cases hidx : findIdxFrom (fun q => q.id == hit.id) s.pieces with
      | none =>
          have hs : handleStart g x y s = s := by
            simp only [handleStart, hfind, hidx]
          rw [hs]
          exact ⟨hp, hnodup, hao⟩
      | some realIdx =>
          cases hq : s.pieces[realIdx]? with
          | none =>
              have hs : handleStart g x y s = s := by
                simp only [handleStart, hfind, hidx, hq]
              rw [hs]
              exact ⟨hp, hnodup, hao⟩
          | some q =>
              have hs : handleStart g x y s =
                  { s with
                    active := some realIdx
                    offX := x - q.currentX
                    offY := y - q.currentY
                    pieces := s.pieces.set realIdx
                      { q with zIndex := maxZ s.pieces + 1 } } := by
                simp only [handleStart, hfind, hidx, hq]
              have hhit : hitTest g x y hit = true := List.find?_some hfind
              have hmem : hit ∈ s.pieces := mem_sortDesc.mp (List.mem_of_find?_eq_some hfind)
              obtain ⟨q', hq', hqid⟩ := findIdxFrom_eq_some hidx
              rw [hq] at hq'
              injection hq' with hq'q
              subst hq'q
              have hqmem : q ∈ s.pieces := by
                rcases List.getElem?_eq_some.mp hq with ⟨hlt, hget⟩
                exact hget ▸ List.getElem_mem hlt
              have hqhit : q = hit :=
                List.inj_on_of_nodup_map hnodup hqmem hmem (by simpa using hqid)
              have hqunlocked : q.isLocked = false := by
                rw [hqhit]
                exact hitTest_unlocked hhit
              have hne : realIdx ≠ j := by
                intro he
                rw [he, hp] at hq
                injection hq with hq2
                rw [hq2, hqunlocked] at hlock
                simp at hlock
              have hlt : realIdx < s.pieces.length := (List.getElem?_eq_some.mp hq).1
              rw [hs]
              refine ⟨?_, ?_, ?_⟩
              · show (s.pieces.set realIdx { q with zIndex := maxZ s.pieces + 1 })[j]? = some p
                rw [List.getElem?_set_ne hne]
                exact hp
              · show ((s.pieces.set realIdx
                    { q with zIndex := maxZ s.pieces + 1 }).map Piece.id).Nodup
                rw [List.map_set]
                show ((s.pieces.map Piece.id).set realIdx q.id).Nodup
                have hid : (s.pieces.map Piece.id)[realIdx]? = some q.id := by
                  rw [List.getElem?_map, hq]
                  rfl
                rw [set_of_getElem?_eq _ _ _ hid]
                exact hnodup
              · simp only [activeOK, List.getElem?_set_self hlt]
                simp [hqunlocked]

/-- `handleMove` leaves every locked piece untouched and preserves
well-formedness. -/
theorem handleMove_preserves (g : Geom) (x y : ℚ) (s : BState) (hwf : WF s)
    {j : ℕ} {p : Piece} (hp : s.pieces[j]? = some p) (hlock : p.isLocked = true) :
    (handleMove g x y s).pieces[j]? = some p ∧ WF (handleMove g x y s) := by
  obtain ⟨hnodup, hao⟩ := hwf
  cases hact : s.active with
  | none =>
      have hs : handleMove g x y s = s := by
        simp only [handleMove, hact]
      rw [hs]
      exact ⟨hp, hnodup, hao⟩
  | some i =>
      obtain ⟨q, hq, hqunlocked⟩ := activeOK_some hao hact
      have hs : handleMove g x y s =
          { s with
            pieces := s.pieces.set i
              { q with
                currentX := max 0 (min (g.cw - g.pw) (x - s.offX))
                currentY := max 0 (min (g.ch - g.ph) (y - s.offY)) } } := by
        simp only [handleMove, hact, hq]
      have hne : i ≠ j := by
        intro he
        rw [he, hp] at hq
        injection hq with hq2
        rw [hq2, hqunlocked] at hlock
        simp at hlock
      have hlt : i < s.pieces.length := (List.getElem?_eq_some.mp hq).1
      rw [hs]
      refine ⟨?_, ?_, ?_⟩
      · show (s.pieces.set i
            { q with
              currentX := max 0 (min (g.cw - g.pw) (x - s.offX))
              currentY := max 0 (min (g.ch - g.ph) (y - s.offY)) })[j]? = some p
        rw [List.getElem?_set_ne hne]
        exact hp
      · show ((s.pieces.set i
            { q with
              currentX := max 0 (min (g.cw - g.pw) (x - s.offX))
              currentY := max 0 (min (g.ch - g.ph) (y - s.offY)) }).map Piece.id).Nodup
        rw [List.map_set]
        show ((s.pieces.map Piece.id).set i q.id).Nodup
        have hid : (s.pieces.map Piece.id)[i]? = some q.id := by
          rw [List.getElem?_map, hq]
          rfl
        rw [set_of_getElem?_eq _ _ _ hid]
        exact hnodup
      · simp only [activeOK, hact, List.getElem?_set_self hlt]
        simp [hqunlocked]

/-- `handleEnd` leaves every locked piece untouched and preserves
well-formedness. -/
theorem handleEnd_preserves (g : Geom) (now : ℤ) (rand : ℕ → ℚ) (s : BState) (hwf : WF s)
    {j : ℕ} {p : Piece} (hp : s.pieces[j]? = some p) (hlock : p.isLocked = true) :
    (handleEnd g now rand s).pieces[j]? = some p ∧ WF (handleEnd g now rand s) := by
  obtain ⟨hnodup, hao⟩ := hwf
  cases hact : s.active with
  | none =>
      have hs : handleEnd g now rand s = s := by
        simp only [handleEnd, hact]
      rw [hs]
      exact ⟨hp, hnodup, hao⟩
  | some i =>
      obtain ⟨q, hq, hqunlocked⟩ := activeOK_some hao hact
      have hne : i ≠ j := by
        intro he
        rw [he, hp] at hq
        injection hq with hq2
        rw [hq2, hqunlocked] at hlock
        simp at hlock
      have hlt : i < s.pieces.length := (List.getElem?_eq_some.mp hq).1
      by_cases hsnap : snapOK g q = true
      · have hs : handleEnd g now rand s =
            { s with
              pieces := s.pieces.set i
                { q with currentX := q.targetX, currentY := q.targetY,
                         isLocked := true, zIndex := 0 }
              effects := s.effects ++
                [{ x := q.targetX, y := q.targetY, startTime := now,
                   particles := (List.range 25).map
                     (mkParticle rand q.targetX q.targetY g.pw g.ph) }]
              timers := if (s.pieces.set i
                  { q with currentX := q.targetX, currentY := q.targetY,
                           isLocked := true, zIndex := 0 }).all (fun r => r.isLocked) then
                  s.timers ++ [now + 800]
                else s.timers
              active := none } := by
          simp only [handleEnd, hact, hq, hsnap, eq_self_iff_true, if_true]
        rw [hs]
        refine ⟨?_, ?_, ?_⟩
        · show (s.pieces.set i
              { q with currentX := q.targetX, currentY := q.targetY,
                       isLocked := true, zIndex := 0 })[j]? = some p
          rw [List.getElem?_set_ne hne]
          exact hp
        · show ((s.pieces.set i
              { q with currentX := q.targetX, currentY := q.targetY,
                       isLocked := true, zIndex := 0 }).map Piece.id).Nodup
          rw [List.map_set]
          show ((s.pieces.map Piece.id).set i q.id).Nodup
          have hid : (s.pieces.map Piece.id)[i]? = some q.id := by
            rw [List.getElem?_map, hq]
            rfl
          rw [set_of_getElem?_eq _ _ _ hid]
          exact hnodup
        · simp [activeOK]
      · have hs : handleEnd g now rand s = { s with active := none } := by
          simp only [handleEnd, hact, hq, if_neg hsnap]
        rw [hs]
        exact ⟨hp, hnodup, by simp [activeOK]⟩

/-- Claim C4: locking is monotonic. In any well-formed state (distinct piece
ids; the active piece, if any, exists and is unlocked — both hold in every
reachable state), a piece that is locked survives any further sequence of
pointer inputs completely unchanged: same `isLocked`, `currentX/currentY`
and `zIndex` (the whole piece record is preserved). -/
theorem c4_lock_monotonic (g : Geom) (l : List PInput) (s : BState) (hwf : WF s)
    (j : ℕ) (p : Piece) (hp : s.pieces[j]? = some p) (hlock : p.isLocked = true) :
    (runInputs g l s).pieces[j]? = some p := by
  induction l generalizing s with
  | nil => exact hp
  | cons inp rest ih =>
      have hstep : (step g inp s).pieces[j]? = some p ∧ WF (step g inp s) := by
        cases inp with
        | down x y => exact handleStart_preserves g x y s hwf hp hlock
        | move x y => exact handleMove_preserves g x y s hwf hp hlock
        | up now rand => exact handleEnd_preserves g now rand s hwf hp hlock
      exact ih (step g inp s) hstep.2 hstep.1

/-- A locked piece and an unlocked piece for the C4 witness. -/
def c4Locked : Piece :=
  { id := 0, row := 0, col := 0, currentX := 0, currentY := 0,
    targetX := 0, targetY := 0, isLocked := true, zIndex := 0 }

/-- The unlocked companion piece for the C4 witness. -/
def c4Free : Piece :=
  { id := 1, row := 0, col := 1, currentX := 2, currentY := 2,
    targetX := 50, targetY := 0, isLocked := false, zIndex := 1 }

/-- A two-piece idle state for the C4 witness. -/
def c4State : BState :=
  { pieces := [c4Locked, c4Free], active := none, offX := 0, offY := 0,
    effects := [], timers := [], fired := 0 }

/-- A complete drag gesture for the C4 witness. -/
def c4Inputs : List PInput := [.down 5 5, .move 60 60, .up 0 halfRand]

/-- Witness for C4: a full drag over a two-piece board leaves the locked
piece exactly as it was. -/
theorem c4_lock_monotonic_witness :
    (runInputs demoGeom c4Inputs c4State).pieces[0]? = some c4Locked :=
  c4_lock_monotonic demoGeom c4Inputs c4State
    ⟨by simp [c4State, c4Locked, c4Free], by rfl⟩ 0 c4Locked rfl rfl

/-! ## C5: sortedness of the scan and the pick characterization -/

/-- `insertDesc` preserves descending `zIndex` sortedness. -/
theorem pairwise_insertDesc {a : Piece} {l : List Piece}
    (h : l.Pairwise (fun u v => v.zIndex ≤ u.zIndex)) :
    (insertDesc a l).Pairwise (fun u v => v.zIndex ≤ u.zIndex) := by
  induction l with
  | nil => simp [insertDesc]
  | cons b bs ih =>
      rw [List.pairwise_cons] at h
      obtain ⟨hb, hbs⟩ := h
      simp only [insertDesc]
      split_ifs with hz
      · rw [List.pairwise_cons]
        refine ⟨?_, List.pairwise_cons.mpr ⟨hb, hbs⟩⟩
        intro v hv
        rcases List.mem_cons.mp hv with rfl | hv'
        · exact le_of_lt hz
        · exact le_trans (hb v hv') (le_of_lt hz)
      · rw [List.pairwise_cons]
        refine ⟨?_, ih hbs⟩
        intro v hv
        rcases mem_insertDesc.mp hv with rfl | hv'
        · exact Nat.le_of_not_lt hz
        · exact hb v hv'

/-- The insertion fold keeps the accumulator sorted. -/
theorem pairwise_foldl_insertDesc (l : List Piece) :
    ∀ acc : List Piece, acc.Pairwise (fun u v => v.zIndex ≤ u.zIndex) →
      (l.foldl (fun acc a => insertDesc a acc) acc).Pairwise
        (fun u v => v.zIndex ≤ u.zIndex) := by
  induction l with
  | nil => intro acc h; exact h
  | cons a as ih =>
      intro acc h
      rw [List.foldl_cons]
      exact ih _ (pairwise_insertDesc h)

/-- `sortDesc` really sorts by descending `zIndex`. -/
theorem pairwise_sortDesc (l : List Piece) :
    (sortDesc l).Pairwise (fun u v => v.zIndex ≤ u.zIndex) :=
  pairwise_foldl_insertDesc l [] List.Pairwise.nil

/-- In a descending-sorted list, the first predicate hit has the largest
`zIndex` among all hits. -/
theorem find?_sorted_max {pred : Piece → Bool} :
    ∀ {l : List Piece} {a : Piece},
      l.Pairwise (fun u v => v.zIndex ≤ u.zIndex) → l.find? pred = some a →
      ∀ b ∈ l, pred b = true → b.zIndex ≤ a.zIndex := by
  intro l
  induction l with
  | nil => intro a _ hfind; cases hfind
  | cons c cs ih =>
      intro a hsort hfind
      rw [List.pairwise_cons] at hsort
      obtain ⟨hc, hcs⟩ := hsort
      by_cases hpc : pred c = true
      · rw [List.find?_cons_of_pos _ hpc] at hfind
        injection hfind with hfind
        subst hfind
        intro b hb hpb
        rcases List.mem_cons.mp hb with rfl | hb'
        · exact le_refl _
        · exact hc b hb'
      · rw [List.find?_cons_of_neg _ (by simpa using hpc)] at hfind
        intro b hb hpb
        rcases List.mem_cons.mp hb with rfl | hb'
        · exact absurd hpb hpc
        · exact ih hcs hfind b hb' hpb

/-- A member satisfying the predicate guarantees `findIndex` succeeds. -/
theorem findIdxFrom_isSome {pred : Piece → Bool} :
    ∀ {l : List Piece} {p : Piece}, p ∈ l → pred p = true →
      (findIdxFrom pred l).isSome = true := by
  intro l
  induction l with
  | nil => intro p hp _; cases hp
  | cons a as ih =>
      intro p hp hpred
      by_cases ha : pred a = true
      · simp [findIdxFrom, ha]
      · rcases List.mem_cons.mp hp with rfl | hp'
        · exact absurd hpred ha
        · have h2 := ih hp' hpred
          obtain ⟨j, hj⟩ := Option.isSome_iff_exists.mp h2
          simp only [findIdxFrom, if_neg ha, hj]
          rfl

/-- Modelled from the spec: the pick predicate of §4.3 with the half-open
rectangle `[currentX, currentX + pieceWidth) × [currentY, currentY +
pieceHeight)` that claim C5 states. The code's `hitTest` uses `≤` on both
upper edges instead. -/
def hitTestHalfOpen (g : Geom) (x y : ℚ) (p : Piece) : Bool :=
  !p.isLocked && decide (p.currentX ≤ x) && decide (x < p.currentX + g.pw)
    && decide (p.currentY ≤ y) && decide (y < p.currentY + g.ph)

/-- The single piece used by the C5 concrete states. -/
def c5Piece : Piece :=
  { id := 0, row := 0, col := 0, currentX := 0, currentY := 0,
    targetX := 50, targetY := 0, isLocked := false, zIndex := 0 }

/-- A one-piece idle state for the C5 counterexample and witness. -/
def c5State : BState :=
  { pieces := [c5Piece], active := none, offX := 0, offY := 0,
    effects := [], timers := [], fired := 0 }

/-- Claim C5 as stated is false on the code: at the pointer position
`(10, 5)` — exactly on the right edge `currentX + pieceWidth` of the only
(unlocked) piece — the claimed half-open rectangle contains no piece, so
the claim requires that no piece state changes; but the code's inclusive
bound hits the piece and `handleStart` changes the state (it picks the
piece and raises its zIndex). -/
theorem c5_counterexample :
    (sortDesc c5State.pieces).find? (hitTestHalfOpen demoGeom 10 5) = none ∧
    handleStart demoGeom 10 5 c5State ≠ c5State := by
  have hsort : sortDesc c5State.pieces = [c5Piece] := rfl
  have hpredHalf : hitTestHalfOpen demoGeom 10 5 c5Piece = false := by
    norm_num [hitTestHalfOpen, c5Piece, demoGeom]
  have hpredC : hitTest demoGeom 10 5 c5Piece = true := by
    norm_num [hitTest, c5Piece, demoGeom]
  constructor
  · rw [hsort]
    simp [List.find?_cons, hpredHalf]
  · have hfind : (sortDesc c5State.pieces).find? (hitTest demoGeom 10 5) = some c5Piece := by
      rw [hsort, List.find?_cons_of_pos _ hpredC]
    have hidx : findIdxFrom (fun p => p.id == c5Piece.id) c5State.pieces = some 0 := by
      simp [findIdxFrom, c5State]
    have hq : c5State.pieces[0]? = some c5Piece := by simp [c5State]
    have hstate : handleStart demoGeom 10 5 c5State =
        { c5State with
          active := some 0
          offX := 10 - c5Piece.currentX
          offY := 5 - c5Piece.currentY
          pieces := c5State.pieces.set 0 { c5Piece with zIndex := maxZ c5State.pieces + 1 } } := by
      simp only [handleStart, hfind, hidx, hq]
    intro h
    rw [hstate] at h
    have hcontra := congrArg BState.active h
    simp [c5State] at hcontra

/-- Claim C5 amended: identical to the claim except that the rectangle is
closed — the code tests `[currentX, currentX + pieceWidth] × [currentY,
currentY + pieceHeight]` with inclusive upper edges. With distinct piece
ids: if no unlocked piece contains the point, no piece state changes; and
any successful scan result is an unlocked piece containing the point whose
`zIndex` is maximal among all such pieces, and the state update sets the
active index to that piece's index, stores the pointer-to-origin offset,
and raises exactly that piece's `zIndex` to `maxZ + 1`. -/
theorem c5_amended_pick (g : Geom) (x y : ℚ) (s : BState)
    (hnodup : (s.pieces.map Piece.id).Nodup) :
    ((∀ q ∈ s.pieces, hitTest g x y q = false) → handleStart g x y s = s) ∧
    ∀ hit, (sortDesc s.pieces).find? (hitTest g x y) = some hit →
      hit.isLocked = false ∧ hitTest g x y hit = true ∧ hit ∈ s.pieces ∧
      (∀ q ∈ s.pieces, hitTest g x y q = true → q.zIndex ≤ hit.zIndex) ∧
      ∃ j, s.pieces[j]? = some hit ∧
        handleStart g x y s =
          { s with
            active := some j
            offX := x - hit.currentX
            offY := y - hit.currentY
            pieces := s.pieces.set j { hit with zIndex := maxZ s.pieces + 1 } } := by
  constructor
  · intro hmiss
    have hfind : (sortDesc s.pieces).find? (hitTest g x y) = none := by
      apply List.find?_eq_none.mpr
      intro q hq
      simp [hmiss q (mem_sortDesc.mp hq)]
    simp only [handleStart, hfind]
  · intro hit hfind
    have hhit : hitTest g x y hit = true := List.find?_some hfind
    have hmem : hit ∈ s.pieces := mem_sortDesc.mp (List.mem_of_find?_eq_some hfind)
    have hmax : ∀ q ∈ s.pieces, hitTest g x y q = true → q.zIndex ≤ hit.zIndex := by
      intro q hq hq'
      exact find?_sorted_max (pairwise_sortDesc s.pieces) hfind q (mem_sortDesc.mpr hq) hq'
    have hsome : (findIdxFrom (fun q => q.id == hit.id) s.pieces).isSome = true :=
      findIdxFrom_isSome hmem (by simp)
    obtain ⟨j, hidx⟩ := Option.isSome_iff_exists.mp hsome
    obtain ⟨q', hq', hq'id⟩ := findIdxFrom_eq_some hidx
    have hq'mem : q' ∈ s.pieces := by
      rcases List.getElem?_eq_some.mp hq' with ⟨hlt, hget⟩
      exact hget ▸ List.getElem_mem hlt
    have hq'hit : q' = hit :=
      List.inj_on_of_nodup_map hnodup hq'mem hmem (by simpa using hq'id)
    subst hq'hit
    refine ⟨hitTest_unlocked hhit, hhit, hmem, hmax, j, hq', ?_⟩
    simp only [handleStart, hfind, hidx, hq']

/-- Witness for the amended C5 at the one-piece state, with the pointer on
the piece's inclusive right edge. -/
theorem c5_amended_pick_witness :
    c5Piece.isLocked = false ∧ hitTest demoGeom 10 5 c5Piece = true ∧
    c5Piece ∈ c5State.pieces ∧
    (∀ q ∈ c5State.pieces, hitTest demoGeom 10 5 q = true → q.zIndex ≤ c5Piece.zIndex) ∧
    ∃ j, c5State.pieces[j]? = some c5Piece ∧
      handleStart demoGeom 10 5 c5State =
        { c5State with
          active := some j
          offX := 10 - c5Piece.currentX
          offY := 5 - c5Piece.currentY
          pieces := c5State.pieces.set j { c5Piece with zIndex := maxZ c5State.pieces + 1 } } :=
  (c5_amended_pick demoGeom 10 5 c5State (by simp [c5State, c5Piece])).2 c5Piece
    (by
      have hpredC : hitTest demoGeom 10 5 c5Piece = true := by
        norm_num [hitTest, c5Piece, demoGeom]
      have hsort : sortDesc c5State.pieces = [c5Piece] := rfl
      rw [hsort, List.find?_cons_of_pos _ hpredC])
